import Mathlib

/-!
Verification of `src/philoagents-ui/sclicer.py` (LPC sprite-sheet → texture
atlas + manifest).

The shallow embedding models a PIL image as a width/height pair together with
a total pixel function; pixels outside an image's extent are irrelevant except
that PIL's `crop` zero-fills (fully transparent) when reading past the source
bounds, which the embedded `crop` reproduces.  Python failure (the
`ZeroDivisionError` raised by `math.ceil(len(frames)/cols)` when `cols == 0`)
is modelled by an `Option` result on the packer.
-/

namespace Sclicer

/-- An RGBA pixel value, as PIL's 4-tuple of channel bytes. -/
abbrev RGBA := Nat × Nat × Nat × Nat

/-- The fully transparent pixel `(0, 0, 0, 0)` used by `Image.new("RGBA", _, (0,0,0,0))`
and by PIL's zero-fill of out-of-bounds crop regions. -/
def clearPx : RGBA := (0, 0, 0, 0)

/-- A PIL image: a pixel grid of the given dimensions.  `px` is total; only
its values at coordinates `(i, j)` with `i < width`, `j < height` represent
actual pixels of the image. -/
structure Img where
  width : Nat
  height : Nat
  px : Nat → Nat → RGBA

/-- `Image.new("RGBA", (w, h), (0, 0, 0, 0))`: a blank, fully transparent image. -/
def Img.blank (w h : Nat) : Img :=
  { width := w, height := h, px := fun _ _ => clearPx }

/-- `sheet.crop((l, u, r, d))`: the sub-image of size `(r - l) × (d - u)` whose
pixel `(i, j)` is the sheet's pixel `(l + i, u + j)`, zero-filled (transparent)
where that coordinate lies outside the sheet — PIL's out-of-bounds behaviour. -/
def Img.crop (sheet : Img) (l u r d : Nat) : Img :=
  { width := r - l
    height := d - u
    px := fun i j =>
      if l + i < sheet.width ∧ u + j < sheet.height then sheet.px (l + i) (u + j)
      else clearPx }

/-- `dst.paste(src, (x, y))` (no mask): every destination pixel covered by the
source is replaced — alpha included — by the corresponding source pixel; the
source is clipped at the destination bounds; all other pixels are unchanged. -/
def Img.paste (dst src : Img) (x y : Nat) : Img :=
  { width := dst.width
    height := dst.height
    px := fun i j =>
      if x ≤ i ∧ i < x + src.width ∧ y ≤ j ∧ j < y + src.height ∧
          i < dst.width ∧ j < dst.height then
        src.px (i - x) (j - y)
      else dst.px i j }

/-- A destination rectangle `(x, y, w, h)` in atlas pixel coordinates, as the
4-tuples appended to `rects` by `paste_frames_to_atlas`. -/
structure Rect where
  x : Nat
  y : Nat
  w : Nat
  h : Nat
deriving DecidableEq, Repr

/-- A point `(p, q)` lies inside rectangle `r` (half-open on both axes). -/
def Rect.contains (r : Rect) (p q : Nat) : Prop :=
  r.x ≤ p ∧ p < r.x + r.w ∧ r.y ≤ q ∧ q < r.y + r.h

instance (r : Rect) (p q : Nat) : Decidable (r.contains p q) := by
  unfold Rect.contains; infer_instance

/-- Two rectangles overlap when some point lies inside both. -/
def Rect.Overlaps (r s : Rect) : Prop :=
  ∃ p q, r.contains p q ∧ s.contains p q

/-- `slice_frames(sheet, frame_w, frame_h, row, start_col, count)` — for `i` in
`range(count)` crop the box `(x, y, x + frame_w, y + frame_h)` with
`x = (start_col + i) * frame_w`, `y = row * frame_h`. -/
def slice_frames (sheet : Img) (frame_w frame_h row start_col count : Nat) :
    List Img :=
  (List.range count).map fun i =>
    sheet.crop ((start_col + i) * frame_w) (row * frame_h)
      ((start_col + i) * frame_w + frame_w) (row * frame_h + frame_h)

/-- The destination rectangle the packing loop computes for index `idx`:
grid cell `(idx % cols, idx / cols)` scaled by the frame size. -/
def rectAt (frame_w frame_h cols idx : Nat) : Rect :=
  ⟨idx % cols * frame_w, idx / cols * frame_h, frame_w, frame_h⟩

/-- The body of the `for idx, frame in enumerate(frames)` loop of
`paste_frames_to_atlas`: paste each frame at its grid cell and append its
rectangle, threading the atlas, the rect list, and the running index. -/
def pasteLoop (frame_w frame_h cols : Nat) :
    Img → List Rect → Nat → List Img → Img × List Rect
  | atlas, rects, _, [] => (atlas, rects)
  | atlas, rects, idx, frame :: rest =>
      pasteLoop frame_w frame_h cols
        (atlas.paste frame (idx % cols * frame_w) (idx / cols * frame_h))
        (rects ++ [rectAt frame_w frame_h cols idx]) (idx + 1) rest

/-- `paste_frames_to_atlas(frames, frame_w, frame_h, cols)`: with `cols == 0`
the Python code raises `ZeroDivisionError` in `math.ceil(len(frames) / cols)`
(modelled as `none`); otherwise `rows = ceil(len(frames) / cols)` — for
naturals `(n + cols - 1) / cols` — a blank RGBA atlas of size
`(cols * frame_w, rows * frame_h)` is allocated and the loop pastes every
frame and records its rect. -/
def paste_frames_to_atlas (frames : List Img) (frame_w frame_h cols : Nat) :
    Option (Img × List Rect) :=
  if cols = 0 then none
  else
    some (pasteLoop frame_w frame_h cols
      (Img.blank (cols * frame_w) ((frames.length + cols - 1) / cols * frame_h))
      [] 0 frames)

/-- The decimal digit characters of `n`, most significant first — what Python's
`d` format code produces for a nonnegative integer. -/
def natDigits (n : Nat) : List Char :=
  if _h : n < 10 then [Nat.digitChar n]
  else natDigits (n / 10) ++ [Nat.digitChar (n % 10)]
termination_by n
decreasing_by exact Nat.div_lt_self (by omega) (by omega)

/-- Python's `f"{i:04d}"` for a natural `i`: the decimal digits, left-padded
with `0` to a minimum width of 4. -/
def pad4 (i : Nat) : String :=
  ⟨List.replicate (4 - (natDigits i).length) '0' ++ natDigits i⟩

/-- The static-pose name `f"{id}-{dir_key}"`. -/
def staticName (id dir : String) : String := id ++ "-" ++ dir

/-- The walk-cycle name `f"{id}-{dir_key}-walk-{i:04d}"`. -/
def walkName (id dir : String) (i : Nat) : String :=
  id ++ "-" ++ dir ++ "-walk-" ++ pad4 i

/-- The direction/row pairs iterated by both loops of `main`, in source order:
`[("front", front_row), ("back", back_row), ("left", left_row), ("right", right_row)]`. -/
def directionRows (front_row back_row left_row right_row : Nat) :
    List (String × Nat) :=
  [("front", front_row), ("back", back_row),
   ("left", left_row), ("right", right_row)]

/-- The walk-cycle reconciliation of `main`: `if args.walk_frames == 9 and
len(frames) == 8: frames.append(frames[-1])`. -/
def reconcile (walk_frames : Nat) (frames : List Img) : List Img :=
  if walk_frames = 9 ∧ frames.length = 8 then frames ++ frames.getLast?.toList
  else frames

/-- One iteration of the walk-cycle loop of `main` for direction `(dir, row)`:
slice the run, reconcile, and emit one name per resulting frame via
`enumerate`. -/
def walkDir (sheet : Img) (id : String)
    (frame_w frame_h start_col walk_frames : Nat) (dir : String) (row : Nat) :
    List String × List Img :=
  let frames :=
    reconcile walk_frames (slice_frames sheet frame_w frame_h row start_col walk_frames)
  ((List.range frames.length).map (walkName id dir), frames)

/-- The frame-collection phase of `main` (building `name_order` and `images`):
first the four static poses in direction order, cropped at
`(static_col * frame_width, row * frame_height)`, then the four walk cycles in
the same direction order. -/
def build_name_and_frame_lists (sheet : Img) (id : String)
    (front_row back_row left_row right_row static_col start_col walk_frames
      frame_w frame_h : Nat) : List String × List Img :=
  let dirs := directionRows front_row back_row left_row right_row
  let staticNames := dirs.map fun p => staticName id p.1
  let staticImgs := dirs.map fun p =>
    sheet.crop (static_col * frame_w) (p.2 * frame_h)
      (static_col * frame_w + frame_w) (p.2 * frame_h + frame_h)
  let walks := dirs.map fun p =>
    walkDir sheet id frame_w frame_h start_col walk_frames p.1 p.2
  (staticNames ++ (walks.map Prod.fst).flatten,
   staticImgs ++ (walks.map Prod.snd).flatten)

/-- One value of the `frames_json` mapping of `main`: the rect, `rotated:
false`, `trimmed: false`, `spriteSourceSize: {x: 0, y: 0, w, h}`,
`sourceSize: {w, h}`. -/
structure ManifestEntry where
  frame : Rect
  rotated : Bool
  trimmed : Bool
  spriteSourceSize : Rect
  sourceSize : Nat × Nat
deriving DecidableEq, Repr

/-- The manifest value built for one rect. -/
def mkEntry (r : Rect) : ManifestEntry :=
  ⟨r, false, false, ⟨0, 0, r.w, r.h⟩, (r.w, r.h)⟩

/-- The `for name, (x, y, w, h) in zip(name_order, rects)` loop of `main`:
the `frames_json` dict as an insertion-ordered association list (Python dicts
preserve insertion order; key uniqueness is proved separately). -/
def build_manifest (names : List String) (rects : List Rect) :
    List (String × ManifestEntry) :=
  (names.zip rects).map fun p => (p.1, mkEntry p.2)

/-! ### Basic facts about the extractor -/

theorem length_slice_frames (sheet : Img) (frame_w frame_h row start_col count : Nat) :
    (slice_frames sheet frame_w frame_h row start_col count).length = count := by
  simp [slice_frames]

theorem getElem?_slice_frames (sheet : Img) (frame_w frame_h row start_col count i : Nat)
    (hi : i < count) :
    (slice_frames sheet frame_w frame_h row start_col count)[i]? =
      some (sheet.crop ((start_col + i) * frame_w) (row * frame_h)
        ((start_col + i) * frame_w + frame_w) (row * frame_h + frame_h)) := by
  simp [slice_frames, hi]

theorem crop_width (sheet : Img) (l u : Nat) (w h : Nat) :
    (sheet.crop l u (l + w) (u + h)).width = w := by
  simp [Img.crop]

theorem crop_height (sheet : Img) (l u : Nat) (w h : Nat) :
    (sheet.crop l u (l + w) (u + h)).height = h := by
  simp [Img.crop]

theorem reconcile_slice_frames (sheet : Img) (frame_w frame_h row start_col wf : Nat) :
    reconcile wf (slice_frames sheet frame_w frame_h row start_col wf) =
      slice_frames sheet frame_w frame_h row start_col wf := by
  unfold reconcile
  rw [if_neg]
  rw [length_slice_frames]
  omega

theorem walkDir_eq (sheet : Img) (id : String) (fw fh sc wf : Nat) (dir : String) (row : Nat) :
    walkDir sheet id fw fh sc wf dir row =
      ((List.range wf).map (walkName id dir), slice_frames sheet fw fh row sc wf) := by
  unfold walkDir
  rw [reconcile_slice_frames]
  simp [length_slice_frames]

/-! ### The packing loop -/

theorem pasteLoop_snd (fw fh cols : Nat) (fs : List Img) :
    ∀ (atlas : Img) (rects : List Rect) (k : Nat),
      (pasteLoop fw fh cols atlas rects k fs).2 =
        rects ++ (List.range fs.length).map fun m => rectAt fw fh cols (k + m) := by
  induction fs with
  | nil => intro atlas rects k; simp [pasteLoop]
  | cons f fs ih =>
      intro atlas rects k
      rw [pasteLoop, ih]
      rw [List.length_cons, List.range_succ_eq_map]
      have harg : (fun m => rectAt fw fh cols (k + 1 + m)) =
          fun m => rectAt fw fh cols (k + (m + 1)) := by
        funext m
        congr 1
        omega
      simp [List.map_map, harg, Function.comp_def]

theorem pasteLoop_width (fw fh cols : Nat) (fs : List Img) :
    ∀ (atlas : Img) (rects : List Rect) (k : Nat),
      (pasteLoop fw fh cols atlas rects k fs).1.width = atlas.width := by
  induction fs with
  | nil => intro atlas rects k; simp [pasteLoop]
  | cons f fs ih =>
      intro atlas rects k
      rw [pasteLoop, ih]
      simp [Img.paste]

theorem pasteLoop_height (fw fh cols : Nat) (fs : List Img) :
    ∀ (atlas : Img) (rects : List Rect) (k : Nat),
      (pasteLoop fw fh cols atlas rects k fs).1.height = atlas.height := by
  induction fs with
  | nil => intro atlas rects k; simp [pasteLoop]
  | cons f fs ih =>
      intro atlas rects k
      rw [pasteLoop, ih]
      simp [Img.paste]

/-- The row/column arithmetic sends distinct indices to disjoint grid cells. -/
theorem rectAt_not_overlaps (fw fh cols i j : Nat) (hij : i ≠ j) :
    ¬ (rectAt fw fh cols i).Overlaps (rectAt fw fh cols j) := by
  rintro ⟨p, q, ⟨hix, hix', hiy, hiy'⟩, ⟨hjx, hjx', hjy, hjy'⟩⟩
  simp only [rectAt] at hix hix' hiy hiy' hjx hjx' hjy hjy'
  have hpi : p / fw = i % cols :=
    Nat.div_eq_of_lt_le hix (by rw [Nat.succ_mul]; omega)
  have hpj : p / fw = j % cols :=
    Nat.div_eq_of_lt_le hjx (by rw [Nat.succ_mul]; omega)
  have hqi : q / fh = i / cols :=
    Nat.div_eq_of_lt_le hiy (by rw [Nat.succ_mul]; omega)
  have hqj : q / fh = j / cols :=
    Nat.div_eq_of_lt_le hjy (by rw [Nat.succ_mul]; omega)
  have di : cols * (i / cols) + i % cols = i := Nat.div_add_mod i cols
  have dj : cols * (j / cols) + j % cols = j := Nat.div_add_mod j cols
  apply hij
  have hmod : i % cols = j % cols := by omega
  have hdiv : i / cols = j / cols := by omega
  rw [hmod, hdiv] at di
  omega

/-- Pixels lying in none of the remaining grid cells are untouched by the
packing loop. -/
theorem pasteLoop_px_outside (fw fh cols : Nat) (fs : List Img) :
    ∀ (atlas : Img) (rects : List Rect) (k p q : Nat),
      (∀ g ∈ fs, g.width = fw ∧ g.height = fh) →
      (∀ idx, k ≤ idx → idx < k + fs.length →
        ¬ (rectAt fw fh cols idx).contains p q) →
      (pasteLoop fw fh cols atlas rects k fs).1.px p q = atlas.px p q := by
  induction fs with
  | nil => intros; simp [pasteLoop]
  | cons f fs ih =>
      intro atlas rects k p q hsz hout
      rw [pasteLoop,
        ih _ _ _ _ _ (fun g hg => hsz g (List.mem_cons_of_mem _ hg))
          (fun idx h1 h2 => hout idx (by omega) (by simp; omega))]
      have hk := hout k le_rfl (by simp)
      have hfw := (hsz f (List.mem_cons_self _ _)).1
      have hfh := (hsz f (List.mem_cons_self _ _)).2
      simp only [Img.paste]
      rw [if_neg]
      rintro ⟨h1, h2, h3, h4, -, -⟩
      rw [hfw] at h2
      rw [hfh] at h4
      exact hk ⟨h1, h2, h3, h4⟩

/-- After the packing loop, the pixels inside the grid cell of the `m`-th
remaining frame are exactly that frame's pixels. -/
theorem pasteLoop_px_at (fw fh cols : Nat) (fs : List Img) :
    ∀ (atlas : Img) (rects : List Rect) (k m : Nat) (f : Img) (di dj : Nat),
      (∀ g ∈ fs, g.width = fw ∧ g.height = fh) →
      atlas.width = cols * fw →
      ((k + fs.length - 1) / cols + 1) * fh ≤ atlas.height →
      cols ≠ 0 →
      fs[m]? = some f →
      di < fw → dj < fh →
      (pasteLoop fw fh cols atlas rects k fs).1.px
        ((k + m) % cols * fw + di) ((k + m) / cols * fh + dj) = f.px di dj := by
  induction fs with
  | nil => intro atlas rects k m f di dj _ _ _ _ hm; simp at hm
  | cons f0 fs ih =>
      intro atlas rects k m f di dj hsz hW hH hc hm hdi hdj
      have hfw := (hsz f0 (List.mem_cons_self _ _)).1
      have hfh := (hsz f0 (List.mem_cons_self _ _)).2
      rw [pasteLoop]
      cases m with
      | zero =>
          have hf : f0 = f := by simpa using hm
          subst hf
          simp only [Nat.add_zero]
          have hcell : (rectAt fw fh cols k).contains
              (k % cols * fw + di) (k / cols * fh + dj) :=
            ⟨Nat.le_add_right _ _, by simp [rectAt]; omega,
             Nat.le_add_right _ _, by simp [rectAt]; omega⟩
          rw [pasteLoop_px_outside fw fh cols fs _ _ _ _ _
            (fun g hg => hsz g (List.mem_cons_of_mem _ hg))
            (fun idx h1 h2 hcont =>
              rectAt_not_overlaps fw fh cols idx k (by omega)
                ⟨_, _, hcont, hcell⟩)]
          have hxlt : k % cols * fw + di < atlas.width := by
            rw [hW]
            have h1 : k % cols + 1 ≤ cols := Nat.mod_lt _ (Nat.pos_of_ne_zero hc)
            calc k % cols * fw + di < (k % cols + 1) * fw := by rw [Nat.succ_mul]; omega
              _ ≤ cols * fw := Nat.mul_le_mul_right _ h1
          have hylt : k / cols * fh + dj < atlas.height := by
            have hx : k + (f0 :: fs).length - 1 = k + fs.length := by
              rw [List.length_cons]; omega
            rw [hx] at hH
            have h1 : k / cols ≤ (k + fs.length) / cols :=
              Nat.div_le_div_right (Nat.le_add_right _ _)
            have h2 : (k / cols + 1) * fh ≤ atlas.height :=
              le_trans (Nat.mul_le_mul_right _ (by omega)) hH
            calc k / cols * fh + dj < (k / cols + 1) * fh := by rw [Nat.succ_mul]; omega
              _ ≤ atlas.height := h2
          simp only [Img.paste]
          rw [if_pos ⟨Nat.le_add_right _ _, by rw [hfw]; omega,
            Nat.le_add_right _ _, by rw [hfh]; omega, hxlt, hylt⟩]
          simp
      | succ m' =>
          have hco : k + (m' + 1) = k + 1 + m' := by omega
          rw [hco, ih _ _ _ _ _ _ _
            (fun g hg => hsz g (List.mem_cons_of_mem _ hg))
            (by simp [Img.paste, hW])
            (by simp only [Img.paste]
                have : k + 1 + fs.length - 1 = k + (f0 :: fs).length - 1 := by
                  rw [List.length_cons]; omega
                rw [this]; exact hH)
            hc (by simpa using hm) hdi hdj]

/-! ### Closed forms for the frame-collection phase of `main` -/

theorem build_fst_eq (sheet : Img) (id : String)
    (fr br lr rr stc sc wf fw fh : Nat) :
    (build_name_and_frame_lists sheet id fr br lr rr stc sc wf fw fh).1 =
      [staticName id "front", staticName id "back",
       staticName id "left", staticName id "right"] ++
      ((["front", "back", "left", "right"].map fun d =>
        (List.range wf).map (walkName id d)).flatten) := by
  simp [build_name_and_frame_lists, directionRows, walkDir_eq]

theorem build_snd_eq (sheet : Img) (id : String)
    (fr br lr rr stc sc wf fw fh : Nat) :
    (build_name_and_frame_lists sheet id fr br lr rr stc sc wf fw fh).2 =
      ([fr, br, lr, rr].map fun row =>
        sheet.crop (stc * fw) (row * fh) (stc * fw + fw) (row * fh + fh)) ++
      ([fr, br, lr, rr].map fun row =>
        slice_frames sheet fw fh row sc wf).flatten := by
  simp [build_name_and_frame_lists, directionRows, walkDir_eq]

theorem mem_slice_frames_shape (sheet : Img) (fw fh row sc n : Nat) (g : Img)
    (hg : g ∈ slice_frames sheet fw fh row sc n) :
    ∃ l u, g = sheet.crop l u (l + fw) (u + fh) := by
  simp only [slice_frames, List.mem_map, List.mem_range] at hg
  obtain ⟨i, -, rfl⟩ := hg
  exact ⟨_, _, rfl⟩

theorem build_frames_size (sheet : Img) (id : String)
    (fr br lr rr stc sc wf fw fh : Nat) :
    ∀ g ∈ (build_name_and_frame_lists sheet id fr br lr rr stc sc wf fw fh).2,
      g.width = fw ∧ g.height = fh := by
  intro g hg
  rw [build_snd_eq] at hg
  have hshape : ∃ l u, g = sheet.crop l u (l + fw) (u + fh) := by
    rcases List.mem_append.1 hg with hg | hg
    · simp only [List.mem_map] at hg
      obtain ⟨row, -, rfl⟩ := hg
      exact ⟨_, _, rfl⟩
    · simp only [List.mem_flatten, List.mem_map] at hg
      obtain ⟨l, ⟨row, -, rfl⟩, hgl⟩ := hg
      exact mem_slice_frames_shape _ _ _ _ _ _ _ hgl
  obtain ⟨l, u, rfl⟩ := hshape
  exact ⟨crop_width _ _ _ _ _, crop_height _ _ _ _ _⟩

/-! ### Unpacking a successful `paste_frames_to_atlas` call -/

theorem pack_eq_some (frames : List Img) (fw fh cols : Nat) (atlas : Img)
    (rects : List Rect)
    (hpack : paste_frames_to_atlas frames fw fh cols = some (atlas, rects)) :
    cols ≠ 0 ∧
    atlas = (pasteLoop fw fh cols
      (Img.blank (cols * fw) ((frames.length + cols - 1) / cols * fh))
      [] 0 frames).1 ∧
    rects = (List.range frames.length).map fun m => rectAt fw fh cols m := by
  have hc : cols ≠ 0 := by
    intro h
    subst h
    simp [paste_frames_to_atlas] at hpack
  unfold paste_frames_to_atlas at hpack
  rw [if_neg hc] at hpack
  injection hpack with hpack
  refine ⟨hc, congrArg Prod.fst hpack.symm, ?_⟩
  have h2 := congrArg Prod.snd hpack
  rw [pasteLoop_snd] at h2
  simpa using h2.symm

/-- C1: `paste_frames_to_atlas` assigns pairwise-disjoint destination
rectangles: for distinct indices `i ≠ j`, `rects[i]` and `rects[j]` do not
overlap (the `columns ≥ 1` precondition is implicit in the call returning a
result at all). -/
theorem pack_rects_disjoint (frames : List Img) (fw fh cols : Nat)
    (atlas : Img) (rects : List Rect)
    (hpack : paste_frames_to_atlas frames fw fh cols = some (atlas, rects))
    (i j : Nat) (hij : i ≠ j) (ri rj : Rect)
    (hi : rects[i]? = some ri) (hj : rects[j]? = some rj) :
    ¬ ri.Overlaps rj := by
  obtain ⟨-, -, hr⟩ := pack_eq_some frames fw fh cols atlas rects hpack
  subst hr
  simp only [List.getElem?_map] at hi hj
  rcases Nat.lt_or_ge i frames.length with h | h
  · rcases Nat.lt_or_ge j frames.length with h' | h'
    · rw [List.getElem?_range h] at hi
      rw [List.getElem?_range h'] at hj
      obtain rfl : rectAt fw fh cols i = ri := by simpa using hi
      obtain rfl : rectAt fw fh cols j = rj := by simpa using hj
      exact rectAt_not_overlaps fw fh cols i j hij
    · rw [List.getElem?_eq_none (by simpa using h')] at hj
      simp at hj
  · rw [List.getElem?_eq_none (by simpa using h)] at hi
    simp at hi

/-- Witness for C1 at a concrete run: two 1×1 frames packed in one column. -/
theorem pack_rects_disjoint_witness :
    ¬ Rect.Overlaps ⟨0, 0, 1, 1⟩ ⟨0, 1, 1, 1⟩ :=
  pack_rects_disjoint [Img.blank 1 1, Img.blank 1 1] 1 1 1 _ _ rfl
    0 1 (by decide) _ _ rfl rfl

/-- C6: the packed atlas measures `columns*frame_w` by
`ceil(n/columns)*frame_h` (for naturals, `(n + columns - 1) / columns` is
`⌈n / columns⌉`), and the rect list has the same length and order as the
input, with entry `idx` equal to
`((idx mod columns)*frame_w, (idx div columns)*frame_h, frame_w, frame_h)`. -/
theorem pack_dims_and_rects (frames : List Img) (fw fh cols : Nat)
    (atlas : Img) (rects : List Rect)
    (hpack : paste_frames_to_atlas frames fw fh cols = some (atlas, rects)) :
    atlas.width = cols * fw ∧
    atlas.height = (frames.length + cols - 1) / cols * fh ∧
    rects.length = frames.length ∧
    ∀ idx, idx < frames.length →
      rects[idx]? = some ⟨idx % cols * fw, idx / cols * fh, fw, fh⟩ := by
  obtain ⟨-, ha, hr⟩ := pack_eq_some frames fw fh cols atlas rects hpack
  subst ha
  subst hr
  refine ⟨?_, ?_, by simp, ?_⟩
  · rw [pasteLoop_width]
    simp [Img.blank]
  · rw [pasteLoop_height]
    simp [Img.blank]
  · intro idx hidx
    simp [List.getElem?_map, List.getElem?_range, hidx, rectAt]

/-- Witness for C6: three 2×3 frames in two columns give a 4×6 atlas and the
expected three rects. -/
theorem pack_dims_and_rects_witness :
    (pasteLoop 2 3 2 (Img.blank 4 6) [] 0
        [Img.blank 2 3, Img.blank 2 3, Img.blank 2 3]).1.width = 2 * 2 ∧
    (pasteLoop 2 3 2 (Img.blank 4 6) [] 0
        [Img.blank 2 3, Img.blank 2 3, Img.blank 2 3]).1.height =
      (3 + 2 - 1) / 2 * 3 ∧
    (pasteLoop 2 3 2 (Img.blank 4 6) [] 0
        [Img.blank 2 3, Img.blank 2 3, Img.blank 2 3]).2.length = 3 ∧
    (pasteLoop 2 3 2 (Img.blank 4 6) [] 0
        [Img.blank 2 3, Img.blank 2 3, Img.blank 2 3]).2[1]? =
      some ⟨1 % 2 * 2, 1 / 2 * 3, 2, 3⟩ := by
  obtain ⟨h1, h2, h3, h4⟩ :=
    pack_dims_and_rects [Img.blank 2 3, Img.blank 2 3, Img.blank 2 3] 2 3 2
      (pasteLoop 2 3 2 (Img.blank 4 6) [] 0
        [Img.blank 2 3, Img.blank 2 3, Img.blank 2 3]).1
      (pasteLoop 2 3 2 (Img.blank 4 6) [] 0
        [Img.blank 2 3, Img.blank 2 3, Img.blank 2 3]).2 rfl
  exact ⟨h1, h2, h3, h4 1 (by decide)⟩

/-- C7: packing an empty frame list with any `columns ≥ 1` succeeds and
returns a `columns*frame_w` wide, zero-height bitmap (`rows = 0`) and an
empty rect list. -/
theorem pack_empty (fw fh cols : Nat) (hc : cols ≠ 0) :
    paste_frames_to_atlas [] fw fh cols =
      some (Img.blank (cols * fw) 0, []) := by
  have h0 : (cols - 1) / cols = 0 := Nat.div_eq_of_lt (by omega)
  simp [paste_frames_to_atlas, hc, pasteLoop, h0]

/-- Witness for C7 with `frame_w = 5`, `frame_h = 7`, `columns = 3`. -/
theorem pack_empty_witness :
    (3 : Nat) ≠ 0 ∧
      paste_frames_to_atlas [] 5 7 3 = some (Img.blank (3 * 5) 0, []) :=
  ⟨by decide, pack_empty 5 7 3 (by decide)⟩

/-- C9: with `columns = 0` the packer fails for every frame list — the Python
code raises `ZeroDivisionError` in `math.ceil(len(frames)/cols)` before any
bitmap or rect is produced, modelled by the `none` result. -/
theorem pack_cols_zero (frames : List Img) (fw fh : Nat) :
    paste_frames_to_atlas frames fw fh 0 = none := rfl

/-! ### Round-trip: atlas pixels against the original frames -/

theorem pack_px_roundtrip (frames : List Img) (fw fh cols : Nat) (atlas : Img)
    (rects : List Rect)
    (hsz : ∀ g ∈ frames, g.width = fw ∧ g.height = fh)
    (hpack : paste_frames_to_atlas frames fw fh cols = some (atlas, rects))
    (k : Nat) (r : Rect) (f : Img)
    (hr : rects[k]? = some r) (hf : frames[k]? = some f)
    (di dj : Nat) (hdi : di < r.w) (hdj : dj < r.h) :
    atlas.px (r.x + di) (r.y + dj) = f.px di dj := by
  obtain ⟨hc, ha, hrects⟩ := pack_eq_some frames fw fh cols atlas rects hpack
  subst ha
  subst hrects
  have hk : k < frames.length := by
    by_contra hk
    rw [List.getElem?_eq_none (by simpa using Nat.le_of_not_lt hk)] at hr
    simp at hr
  rw [List.getElem?_map, List.getElem?_range hk] at hr
  obtain rfl : rectAt fw fh cols k = r := by simpa using hr
  have hH : ((0 + frames.length - 1) / cols + 1) * fh ≤
      (Img.blank (cols * fw) ((frames.length + cols - 1) / cols * fh)).height := by
    simp only [Img.blank, Nat.zero_add]
    have hsplit : frames.length + cols - 1 = frames.length - 1 + cols := by omega
    rw [hsplit, Nat.add_div_right _ (Nat.pos_of_ne_zero hc)]
  have hmain := pasteLoop_px_at fw fh cols frames
    (Img.blank (cols * fw) ((frames.length + cols - 1) / cols * fh)) [] 0 k f
    di dj hsz (by simp [Img.blank]) hH hc hf hdi hdj
  simpa [rectAt] using hmain

theorem build_manifest_getElem (names : List String) (rects : List Rect)
    (k : Nat) (nk : String) (r : Rect)
    (hn : names[k]? = some nk) (hr : rects[k]? = some r) :
    (build_manifest names rects)[k]? = some (nk, mkEntry r) := by
  unfold build_manifest
  rw [List.getElem?_map,
    (@List.getElem?_zip_eq_some _ _ names rects (nk, r) k).2 ⟨hn, hr⟩]
  rfl

/-- C2: round-trip of packing and manifest lookup — for every frame at
position `k` of the extraction output, the atlas pixels inside `rects[k]`
(the rect recorded in the manifest under `names[k]`) equal the pixels of the
originally extracted frame `frames[k]`. -/
theorem pack_roundtrip (sheet : Img) (id : String)
    (fr br lr rr stc sc wf fw fh cols : Nat) (atlas : Img) (rects : List Rect)
    (hpack : paste_frames_to_atlas
      (build_name_and_frame_lists sheet id fr br lr rr stc sc wf fw fh).2
      fw fh cols = some (atlas, rects))
    (k : Nat) (r : Rect) (f : Img) (nk : String)
    (hr : rects[k]? = some r)
    (hf : (build_name_and_frame_lists sheet id fr br lr rr stc sc wf fw fh).2[k]? =
      some f)
    (hn : (build_name_and_frame_lists sheet id fr br lr rr stc sc wf fw fh).1[k]? =
      some nk)
    (di dj : Nat) (hdi : di < r.w) (hdj : dj < r.h) :
    atlas.px (r.x + di) (r.y + dj) = f.px di dj ∧
    (build_manifest
        (build_name_and_frame_lists sheet id fr br lr rr stc sc wf fw fh).1
        rects)[k]? = some (nk, mkEntry r) :=
  ⟨pack_px_roundtrip _ fw fh cols atlas rects
      (build_frames_size sheet id fr br lr rr stc sc wf fw fh) hpack
      k r f hr hf di dj hdi hdj,
   build_manifest_getElem _ rects k nk r hn hr⟩

/-- Witness for C2 at a concrete run (blank 1×1 sheet, no walk frames, one
output column): the atlas pixel at the first static frame's rect equals that
frame's pixel, and the manifest's first entry carries that rect. -/
theorem pack_roundtrip_witness :
    (pasteLoop 1 1 1 (Img.blank 1 4) [] 0
        (build_name_and_frame_lists (Img.blank 1 1) "h" 0 0 0 0 0 0 0 1 1).2).1.px
        (0 + 0) (0 + 0) =
      ((Img.blank 1 1).crop (0 * 1) (0 * 1) (0 * 1 + 1) (0 * 1 + 1)).px 0 0 ∧
    (build_manifest
        (build_name_and_frame_lists (Img.blank 1 1) "h" 0 0 0 0 0 0 0 1 1).1
        (pasteLoop 1 1 1 (Img.blank 1 4) [] 0
          (build_name_and_frame_lists (Img.blank 1 1) "h" 0 0 0 0 0 0 0 1 1).2).2)[0]? =
      some (staticName "h" "front", mkEntry ⟨0, 0, 1, 1⟩) :=
  pack_roundtrip (Img.blank 1 1) "h" 0 0 0 0 0 0 0 1 1 1 _ _ rfl
    0 ⟨0, 0, 1, 1⟩ _ (staticName "h" "front") rfl rfl rfl 0 0
    (by decide) (by decide)

/-- C3: `slice_frames` returns exactly `count` frames; the `i`-th (increasing
`i`) is the crop at `((start_col+i)*frame_w, row*frame_h)` of size
`frame_w × frame_h`. -/
theorem slice_frames_run_spec (sheet : Img) (fw fh row sc count : Nat) :
    (slice_frames sheet fw fh row sc count).length = count ∧
    ∀ i, i < count →
      (slice_frames sheet fw fh row sc count)[i]? =
        some (sheet.crop ((sc + i) * fw) (row * fh)
          ((sc + i) * fw + fw) (row * fh + fh)) ∧
      (sheet.crop ((sc + i) * fw) (row * fh)
          ((sc + i) * fw + fw) (row * fh + fh)).width = fw ∧
      (sheet.crop ((sc + i) * fw) (row * fh)
          ((sc + i) * fw + fw) (row * fh + fh)).height = fh :=
  ⟨length_slice_frames sheet fw fh row sc count,
   fun i hi => ⟨getElem?_slice_frames sheet fw fh row sc count i hi,
     crop_width _ _ _ _ _, crop_height _ _ _ _ _⟩⟩

/-- Witness for C3: a 2-frame run on a blank 3×3 sheet, inspected at `i = 1`. -/
theorem slice_frames_run_spec_witness :
    (slice_frames (Img.blank 3 3) 1 1 0 0 2).length = 2 ∧
    ((slice_frames (Img.blank 3 3) 1 1 0 0 2)[1]? =
      some ((Img.blank 3 3).crop ((0 + 1) * 1) (0 * 1)
        ((0 + 1) * 1 + 1) (0 * 1 + 1)) ∧
      ((Img.blank 3 3).crop ((0 + 1) * 1) (0 * 1)
        ((0 + 1) * 1 + 1) (0 * 1 + 1)).width = 1 ∧
      ((Img.blank 3 3).crop ((0 + 1) * 1) (0 * 1)
        ((0 + 1) * 1 + 1) (0 * 1 + 1)).height = 1) :=
  ⟨(slice_frames_run_spec (Img.blank 3 3) 1 1 0 0 2).1,
   (slice_frames_run_spec (Img.blank 3 3) 1 1 0 0 2).2 1 (by decide)⟩

/-- C4: the main loop returns equally long name/frame lists, statics first in
direction order `front, back, left, right` named `{id}-{direction}`, then per
direction the walk frames named `{id}-{direction}-walk-{i:04d}` (`pad4 i`)
with `i` counting from 0, positionally aligned with the extracted crops. -/
theorem build_lists_spec (sheet : Img) (id : String)
    (fr br lr rr stc sc wf fw fh : Nat) :
    (build_name_and_frame_lists sheet id fr br lr rr stc sc wf fw fh).1.length =
      (build_name_and_frame_lists sheet id fr br lr rr stc sc wf fw fh).2.length ∧
    (build_name_and_frame_lists sheet id fr br lr rr stc sc wf fw fh).1 =
      [staticName id "front", staticName id "back",
       staticName id "left", staticName id "right"] ++
      ((["front", "back", "left", "right"].map fun d =>
        (List.range wf).map (walkName id d)).flatten) ∧
    (build_name_and_frame_lists sheet id fr br lr rr stc sc wf fw fh).2 =
      ([fr, br, lr, rr].map fun row =>
        sheet.crop (stc * fw) (row * fh) (stc * fw + fw) (row * fh + fh)) ++
      ([fr, br, lr, rr].map fun row =>
        slice_frames sheet fw fh row sc wf).flatten := by
  refine ⟨?_, build_fst_eq sheet id fr br lr rr stc sc wf fw fh,
    build_snd_eq sheet id fr br lr rr stc sc wf fw fh⟩
  rw [build_fst_eq, build_snd_eq]
  simp [length_slice_frames]

/-- C10: the 8-to-9 padding branch is unreachable — `slice_frames` always
returns exactly `walk_frames` frames, so `walk_frames == 9 ∧ len(frames) == 8`
never holds, the reconciliation is the identity on every extracted run, and a
run emits `4 + 4*walk_frames` frames in total. -/
theorem pad_branch_unreachable (sheet : Img) (id : String)
    (fr br lr rr stc sc wf fw fh row : Nat) :
    ¬ (wf = 9 ∧ (slice_frames sheet fw fh row sc wf).length = 8) ∧
    reconcile wf (slice_frames sheet fw fh row sc wf) =
      slice_frames sheet fw fh row sc wf ∧
    (build_name_and_frame_lists sheet id fr br lr rr stc sc wf fw fh).2.length =
      4 + 4 * wf := by
  refine ⟨?_, reconcile_slice_frames sheet fw fh row sc wf, ?_⟩
  · rintro ⟨h9, h8⟩
    rw [length_slice_frames] at h8
    omega
  · rw [build_snd_eq]
    simp [length_slice_frames]
    omega

/-- Witness for C10 at `walk_frames = 9`: the branch guard is false and the
run yields `4 + 4*9 = 40` frames. -/
theorem pad_branch_unreachable_witness :
    ¬ ((9 : Nat) = 9 ∧ (slice_frames (Img.blank 1 1) 1 1 0 0 9).length = 8) ∧
    reconcile 9 (slice_frames (Img.blank 1 1) 1 1 0 0 9) =
      slice_frames (Img.blank 1 1) 1 1 0 0 9 ∧
    (build_name_and_frame_lists (Img.blank 1 1) "h" 0 0 0 0 0 0 9 1 1).2.length =
      4 + 4 * 9 :=
  pad_branch_unreachable (Img.blank 1 1) "h" 0 0 0 0 0 0 9 1 1 0

/-! ### Decimal formatting: `pad4` decodes back to its input -/

/-- One step of reading a decimal numeral: previous value times ten plus the
digit below the character (`'0'.toNat = 48`). -/
def digitVal (a : Nat) (c : Char) : Nat := 10 * a + (c.toNat - 48)

theorem digitChar_toNat (d : Nat) (h : d < 10) : (Nat.digitChar d).toNat = 48 + d := by
  interval_cases d <;> rfl

theorem foldl_digitVal_zeros (k : Nat) :
    List.foldl digitVal 0 (List.replicate k '0') = 0 := by
  induction k with
  | zero => rfl
  | succ k ih =>
      rw [List.replicate_succ, List.foldl_cons]
      have h0 : digitVal 0 '0' = 0 := rfl
      rw [h0]
      exact ih

theorem foldl_digitVal_natDigits (n : Nat) :
    List.foldl digitVal 0 (natDigits n) = n := by
  induction n using Nat.strong_induction_on with
  | _ n ih =>
      rw [natDigits]
      split
      · next h =>
          simp [List.foldl_cons, digitVal, digitChar_toNat n h]
      · next h =>
          rw [List.foldl_append,
            ih (n / 10) (Nat.div_lt_self (by omega) (by omega))]
          simp [List.foldl_cons, digitVal,
            digitChar_toNat (n % 10) (Nat.mod_lt _ (by omega))]
          omega

theorem foldl_digitVal_pad4 (i : Nat) :
    List.foldl digitVal 0 (pad4 i).data = i := by
  show List.foldl digitVal 0 (List.replicate _ '0' ++ natDigits i) = i
  rw [List.foldl_append, foldl_digitVal_zeros, foldl_digitVal_natDigits]

theorem pad4_injective : Function.Injective pad4 := by
  intro i j h
  have hv := congrArg (fun s : String => List.foldl digitVal 0 s.data) h
  simpa [foldl_digitVal_pad4] using hv

theorem pad4_length (i : Nat) : 4 ≤ (pad4 i).length := by
  show 4 ≤ (String.mk (List.replicate _ '0' ++ natDigits i)).length
  rw [String.length_mk, List.length_append, List.length_replicate]
  omega

/-! ### Distinctness of the emitted frame names -/

theorem str_append_cancel_left {a s t : String} (h : a ++ s = a ++ t) : s = t := by
  apply String.ext
  have hd := congrArg String.data h
  rw [String.data_append, String.data_append] at hd
  exact List.append_cancel_left hd

theorem str_append_ne_of_head (s t u v : String) (c c' : Char)
    (hs : s.data.head? = some c) (ht : t.data.head? = some c') (hne : c ≠ c') :
    s ++ u ≠ t ++ v := by
  intro h
  have hd := congrArg String.data h
  rw [String.data_append, String.data_append] at hd
  rcases hsd : s.data with - | ⟨c0, cs⟩
  · rw [hsd] at hs
    simp at hs
  · rcases htd : t.data with - | ⟨c1, ct⟩
    · rw [htd] at ht
      simp at ht
    · rw [hsd] at hs hd
      rw [htd] at ht hd
      simp only [List.head?_cons, Option.some.injEq, List.cons_append,
        List.cons.injEq] at hs ht hd
      exact hne (hs ▸ ht ▸ hd.1)

theorem staticName_inj_dir {id d1 d2 : String}
    (h : staticName id d1 = staticName id d2) : d1 = d2 :=
  str_append_cancel_left h

theorem walkName_inj_idx {id d : String} {i j : Nat}
    (h : walkName id d i = walkName id d j) : i = j :=
  pad4_injective (str_append_cancel_left h)

theorem walkName_ne_dir (id : String) (d1 d2 : String) (i j : Nat) (c1 c2 : Char)
    (h1 : d1.data.head? = some c1) (h2 : d2.data.head? = some c2)
    (hne : c1 ≠ c2) : walkName id d1 i ≠ walkName id d2 j := by
  unfold walkName
  intro h
  simp only [String.append_assoc] at h
  have h' := str_append_cancel_left (str_append_cancel_left h)
  exact str_append_ne_of_head d1 d2 _ _ c1 c2 h1 h2 hne h'

theorem staticName_ne_walkName (id d1 d2 : String) (i : Nat)
    (hlen : d1.length ≤ 5) : staticName id d1 ≠ walkName id d2 i := by
  intro h
  have hl := congrArg String.length h
  unfold staticName walkName at hl
  simp only [String.length_append] at hl
  have e1 : ("-" : String).length = 1 := rfl
  have e2 : ("-walk-" : String).length = 6 := rfl
  have hp := pad4_length i
  rw [e1, e2] at hl
  omega

theorem walkList_nodup (id d : String) (wf : Nat) :
    ((List.range wf).map (walkName id d)).Nodup :=
  (List.nodup_range _).map fun _ _ h => walkName_inj_idx h

theorem walkLists_disjoint (id : String) (wf : Nat) (d1 d2 : String)
    (c1 c2 : Char) (h1 : d1.data.head? = some c1)
    (h2 : d2.data.head? = some c2) (hne : c1 ≠ c2) :
    List.Disjoint ((List.range wf).map (walkName id d1))
      ((List.range wf).map (walkName id d2)) := by
  intro a ha hb
  simp only [List.mem_map, List.mem_range] at ha hb
  obtain ⟨i, -, rfl⟩ := ha
  obtain ⟨j, -, hj⟩ := hb
  exact walkName_ne_dir id d1 d2 i j c1 c2 h1 h2 hne hj.symm

theorem build_names_nodup (sheet : Img) (id : String)
    (fr br lr rr stc sc wf fw fh : Nat) :
    (build_name_and_frame_lists sheet id fr br lr rr stc sc wf fw fh).1.Nodup := by
  have hsd : ∀ d1 d2 : String, d1 ≠ d2 →
      staticName id d1 ≠ staticName id d2 :=
    fun d1 d2 hne h => hne (staticName_inj_dir h)
  rw [build_fst_eq, List.nodup_append]
  refine ⟨?_, ?_, ?_⟩
  · refine List.nodup_cons.2 ⟨?_, List.nodup_cons.2 ⟨?_,
      List.nodup_cons.2 ⟨?_, List.nodup_singleton _⟩⟩⟩
    · simp only [List.mem_cons, List.not_mem_nil, or_false]
      push_neg
      exact ⟨hsd _ _ (by decide), hsd _ _ (by decide), hsd _ _ (by decide)⟩
    · simp only [List.mem_cons, List.not_mem_nil, or_false]
      push_neg
      exact ⟨hsd _ _ (by decide), hsd _ _ (by decide)⟩
    · simp only [List.mem_cons, List.not_mem_nil, or_false]
      push_neg
      exact hsd _ _ (by decide)
  · simp only [List.map_cons, List.map_nil]
    rw [List.nodup_flatten]
    constructor
    · intro l hl
      simp only [List.mem_cons, List.not_mem_nil, or_false] at hl
      rcases hl with rfl | rfl | rfl | rfl
      · exact walkList_nodup id "front" wf
      · exact walkList_nodup id "back" wf
      · exact walkList_nodup id "left" wf
      · exact walkList_nodup id "right" wf
    · refine List.Pairwise.cons ?_ (List.Pairwise.cons ?_
        (List.Pairwise.cons ?_ (List.pairwise_singleton _ _)))
      · intro l hl
        simp only [List.mem_cons, List.not_mem_nil, or_false] at hl
        rcases hl with rfl | rfl | rfl
        · exact walkLists_disjoint id wf "front" "back" 'f' 'b' rfl rfl (by decide)
        · exact walkLists_disjoint id wf "front" "left" 'f' 'l' rfl rfl (by decide)
        · exact walkLists_disjoint id wf "front" "right" 'f' 'r' rfl rfl (by decide)
      · intro l hl
        simp only [List.mem_cons, List.not_mem_nil, or_false] at hl
        rcases hl with rfl | rfl
        · exact walkLists_disjoint id wf "back" "left" 'b' 'l' rfl rfl (by decide)
        · exact walkLists_disjoint id wf "back" "right" 'b' 'r' rfl rfl (by decide)
      · intro l hl
        simp only [List.mem_cons, List.not_mem_nil, or_false] at hl
        rcases hl with rfl
        exact walkLists_disjoint id wf "left" "right" 'l' 'r' rfl rfl (by decide)
  · intro a ha hb
    simp only [List.mem_cons, List.not_mem_nil, or_false] at ha
    simp only [List.map_cons, List.map_nil, List.flatten_cons, List.flatten_nil,
      List.append_nil, List.mem_append, List.mem_map, List.mem_range] at hb
    rcases ha with rfl | rfl | rfl | rfl <;>
      rcases hb with ⟨j, -, hj⟩ | ⟨j, -, hj⟩ | ⟨j, -, hj⟩ | ⟨j, -, hj⟩ <;>
      exact staticName_ne_walkName id _ _ j (by decide) hj.symm

theorem build_length_eq (sheet : Img) (id : String)
    (fr br lr rr stc sc wf fw fh : Nat) :
    (build_name_and_frame_lists sheet id fr br lr rr stc sc wf fw fh).1.length =
      (build_name_and_frame_lists sheet id fr br lr rr stc sc wf fw fh).2.length := by
  rw [build_fst_eq, build_snd_eq]
  simp [length_slice_frames]

/-- C8: all emitted frame names are pairwise distinct, so the manifest holds
exactly one entry per frame — `len(names)` entries in total — with key order
matching extraction order. -/
theorem manifest_keys_spec (sheet : Img) (id : String)
    (fr br lr rr stc sc wf fw fh cols : Nat) (atlas : Img) (rects : List Rect)
    (hpack : paste_frames_to_atlas
      (build_name_and_frame_lists sheet id fr br lr rr stc sc wf fw fh).2
      fw fh cols = some (atlas, rects)) :
    (build_name_and_frame_lists sheet id fr br lr rr stc sc wf fw fh).1.Nodup ∧
    (build_manifest
        (build_name_and_frame_lists sheet id fr br lr rr stc sc wf fw fh).1
        rects).map Prod.fst =
      (build_name_and_frame_lists sheet id fr br lr rr stc sc wf fw fh).1 ∧
    (build_manifest
        (build_name_and_frame_lists sheet id fr br lr rr stc sc wf fw fh).1
        rects).length =
      (build_name_and_frame_lists sheet id fr br lr rr stc sc wf fw fh).1.length := by
  obtain ⟨-, -, hr⟩ := pack_eq_some _ fw fh cols atlas rects hpack
  have hlen : (build_name_and_frame_lists sheet id fr br lr rr stc sc wf fw
      fh).1.length ≤ rects.length := by
    rw [hr]
    simp [build_length_eq sheet id fr br lr rr stc sc wf fw fh]
  refine ⟨build_names_nodup sheet id fr br lr rr stc sc wf fw fh, ?_, ?_⟩
  · unfold build_manifest
    rw [List.map_map]
    have hcomp : (Prod.fst ∘ fun p : String × Rect => (p.1, mkEntry p.2)) =
        Prod.fst := rfl
    rw [hcomp, List.map_fst_zip _ _ hlen]
  · unfold build_manifest
    rw [List.length_map, List.length_zip]
    omega

/-- Witness for C8 at a concrete run (blank sheet, no walk frames, one
column). -/
theorem manifest_keys_spec_witness :
    (build_name_and_frame_lists (Img.blank 1 1) "h" 0 0 0 0 0 0 0 1 1).1.Nodup ∧
    (build_manifest
        (build_name_and_frame_lists (Img.blank 1 1) "h" 0 0 0 0 0 0 0 1 1).1
        (pasteLoop 1 1 1 (Img.blank 1 4) [] 0
          (build_name_and_frame_lists (Img.blank 1 1) "h" 0 0 0 0 0 0 0 1 1).2).2).map
        Prod.fst =
      (build_name_and_frame_lists (Img.blank 1 1) "h" 0 0 0 0 0 0 0 1 1).1 ∧
    (build_manifest
        (build_name_and_frame_lists (Img.blank 1 1) "h" 0 0 0 0 0 0 0 1 1).1
        (pasteLoop 1 1 1 (Img.blank 1 4) [] 0
          (build_name_and_frame_lists (Img.blank 1 1) "h" 0 0 0 0 0 0 0 1 1).2).2).length =
      (build_name_and_frame_lists (Img.blank 1 1) "h" 0 0 0 0 0 0 0 1 1).1.length :=
  manifest_keys_spec (Img.blank 1 1) "h" 0 0 0 0 0 0 0 1 1 1 _ _ rfl

/-- C5: when `walk_count == 9` but extraction yielded only 8 frames, the last
frame is duplicated to pad the run to 9, the duplicate being pixel-identical
to the 8th frame and receiving the next sequential name with index `0008`
(`pad4 8 = "0008"`); for any other mismatch the reconciliation changes
nothing. -/
theorem reconcile_pads (id dir : String) (wf : Nat) (frames : List Img)
    (f : Img) (h9 : wf = 9) (h8 : frames.length = 8)
    (hl : frames.getLast? = some f) :
    reconcile wf frames = frames ++ [f] ∧
    (reconcile wf frames).length = 9 ∧
    (reconcile wf frames)[8]? = some f ∧
    ((List.range (reconcile wf frames).length).map (walkName id dir)).getLast? =
      some (walkName id dir 8) ∧
    pad4 8 = "0008" ∧
    (∀ wf' (frames' : List Img), ¬ (wf' = 9 ∧ frames'.length = 8) →
      reconcile wf' frames' = frames') := by
  subst h9
  have he : reconcile 9 frames = frames ++ [f] := by
    unfold reconcile
    rw [if_pos ⟨rfl, h8⟩, hl]
    rfl
  have hlen : (reconcile 9 frames).length = 9 := by
    rw [he]
    simp [h8]
  refine ⟨he, hlen, ?_, ?_, ?_, ?_⟩
  · rw [he, List.getElem?_append_right (by omega)]
    simp [h8]
  · rw [hlen, List.range_succ, List.map_append]
    simp
  · have hd : natDigits 8 = ['8'] := by
      rw [natDigits]
      simp [Nat.digitChar]
    show String.mk (List.replicate (4 - (natDigits 8).length) '0' ++
      natDigits 8) = "0008"
    rw [hd]
    rfl
  · intro wf' frames' hne
    unfold reconcile
    rw [if_neg hne]

/-- Witness for C5: a run of 8 blank frames requested as 9 is padded with a
copy of its last frame, and the padding index formats as `0008`. -/
theorem reconcile_pads_witness :
    (List.replicate 8 (Img.blank 1 1)).length = 8 ∧
    (List.replicate 8 (Img.blank 1 1)).getLast? = some (Img.blank 1 1) ∧
    reconcile 9 (List.replicate 8 (Img.blank 1 1)) =
      List.replicate 8 (Img.blank 1 1) ++ [Img.blank 1 1] ∧
    (reconcile 9 (List.replicate 8 (Img.blank 1 1)))[8]? =
      some (Img.blank 1 1) ∧
    pad4 8 = "0008" :=
  ⟨rfl, rfl,
   (reconcile_pads "h" "front" 9 (List.replicate 8 (Img.blank 1 1))
     (Img.blank 1 1) rfl rfl rfl).1,
   (reconcile_pads "h" "front" 9 (List.replicate 8 (Img.blank 1 1))
     (Img.blank 1 1) rfl rfl rfl).2.2.1,
   (reconcile_pads "h" "front" 9 (List.replicate 8 (Img.blank 1 1))
     (Img.blank 1 1) rfl rfl rfl).2.2.2.2.1⟩

end Sclicer
